import Mathlib

/-!
Verification of the vectorscope sample-to-raster pipeline (`src/main.rs`).

The Rust program is shallowly embedded as follows:

* `f32` sample amplitudes and the floating-point arithmetic of `get_xy`,
  the decay step and the colour table are modelled as exact rationals.
  Every floating-point operation the program performs on its actual value
  ranges (amplitudes, half window widths below 2^24, the constants 0.85
  and 1.5) is exact apart from the final truncations, which are modelled
  by `fTrunc` (round toward zero, the semantics of Rust `as i32`/`as u8`
  on in-range values).
* The byte buffers `pixels` and `plot` are modelled as total functions
  `ℕ → ℕ` from flat byte index to byte value; the concrete buffer is the
  restriction of that function to indices below its length.  In-bounds
  reasoning about the indices the code actually touches is carried out
  separately (claims C4 and C10).
* The shared queue, the front buffer and the event loop are modelled as
  explicit state passing (`AudioState`, `LoopState`, `handleEvent`).
-/

/-- Truncation of a rational toward zero: the semantics of Rust `as i32`
on an in-range `f32` value. -/
def fTrunc (q : ℚ) : ℤ := if q < 0 then -⌊-q⌋ else ⌊q⌋

/-- `u8::saturating_add` on byte values. -/
def satAdd (a b : ℕ) : ℕ := min (a + b) 255

/-- Source `to_u8`: clamp an `i32` into `0..=255`. -/
def to_u8 (x : ℤ) : ℕ := if x < 0 then 0 else if x > 255 then 255 else x.toNat

/-- Source `AudioState::get_xy`: map a stereo sample to pixel coordinates.
`x = left * half_width + half_width`, `y = -right * half_height + half_height`,
both truncated toward zero (`as i32`). -/
def get_xy (half_width half_height left right : ℚ) : ℤ × ℤ :=
  (fTrunc (left * half_width + half_width), fTrunc (-right * half_height + half_height))

/-- The buffer flip at the top of `AudioState::render`: if the shared back
queue holds more than `BUFFER_SIZE = 2048` samples, the front buffer is
cleared and the whole back queue is drained into it; otherwise both are
left untouched.  Returns `(new samples_back, new samples_front)`. -/
def flipBuffers (samples_back samples_front : List ℚ) : List ℚ × List ℚ :=
  if samples_back.length > 2048 then ([], samples_back) else (samples_back, samples_front)

/-- `chunks_exact(2)` over the interleaved sample list: consecutive
`(left, right)` pairs, any trailing odd sample dropped. -/
def chunksExact2 : List ℚ → List (ℚ × ℚ)
  | l :: r :: rest => (l, r) :: chunksExact2 rest
  | _ => []

/-- Modelled from the spec: the `line_drawing::Bresenham` iterator used by
`Plot::dot` comes from an external crate whose source is not part of this
repository.  The spec describes it as "integer Bresenham line stepping to
enumerate every grid cell on the straight path between `from` and `to`
inclusive of both endpoints"; this is the standard all-octant integer
Bresenham walk.  The fuel argument bounds the number of steps. -/
def bresLoop : ℕ → ℤ → ℤ → ℤ → ℤ → ℤ → ℤ → ℤ → ℤ → ℤ → List (ℤ × ℤ)
  | 0, _, _, _, _, _, _, _, _, _ => []
  | fuel + 1, x, y, x1, y1, dx, dy, sx, sy, err =>
    (x, y) ::
      (if x = x1 ∧ y = y1 then []
       else
         let e2 := 2 * err
         let x' := if e2 ≥ dy then x + sx else x
         let err' := if e2 ≥ dy then err + dy else err
         let y' := if e2 ≤ dx then y + sy else y
         let err'' := if e2 ≤ dx then err' + dx else err'
         bresLoop fuel x' y' x1 y1 dx dy sx sy err'')

/-- Modelled from the spec: all-octant Bresenham path from `(x0, y0)` to
`(x1, y1)`, both endpoints included. -/
def bresenham (x0 y0 x1 y1 : ℤ) : List (ℤ × ℤ) :=
  let dx : ℤ := (x1 - x0).natAbs
  let dy : ℤ := -((y1 - y0).natAbs : ℤ)
  let sx : ℤ := if x0 < x1 then 1 else -1
  let sy : ℤ := if y0 < y1 then 1 else -1
  bresLoop ((x1 - x0).natAbs + (y1 - y0).natAbs + 1) x0 y0 x1 y1 dx dy sx sy (dx + dy)

/-- Source `struct Plot`: raster dimensions, the RGBA pixel byte buffer,
the persistence (intensity) buffer, and the de-duplication state
`previous_pos1` of `Plot::dot`. -/
structure Plot where
  width : ℕ
  height : ℕ
  pixels : ℕ → ℕ
  plot : ℕ → ℕ
  previous_pos1 : ℤ × ℤ

/-- Source `Plot::pixel`: saturating-accumulate `intensity` into the
persistence cell `(x, y)` if it lies inside `[0, width) × [0, height)`,
and do nothing otherwise. -/
def Plot.pixel (p : Plot) (x y : ℤ) (intensity : ℕ) : Plot :=
  if 0 ≤ x ∧ x < (p.width : ℤ) ∧ 0 ≤ y ∧ y < (p.height : ℤ) then
    let i := x.toNat + y.toNat * p.width
    { p with plot := Function.update p.plot i (satAdd (p.plot i) intensity) }
  else p

/-- Source `Plot::point` (the commented-out neighbour writes are dead code). -/
def Plot.point (p : Plot) (x y : ℤ) (intensity : ℕ) : Plot :=
  p.pixel x y intensity

/-- Source `Plot::dot`: walk the Bresenham path from `(x0, y0)` to
`(x1, y1)`, plotting intensity 16 at every cell that differs from
`previous_pos1`, then set `previous_pos1` to `(x1, y1)`. -/
def Plot.dot (p : Plot) (x0 y0 x1 y1 : ℤ) : Plot :=
  let p' := (bresenham x0 y0 x1 y1).foldl
    (fun q c => if c ≠ q.previous_pos1 then q.point c.1 c.2 16 else q) p
  { p' with previous_pos1 := (x1, y1) }

/-- Source `DIVISIONS`. -/
def DIVISIONS : ℕ := 5

/-- Source `DIV_BRIGHTNESS`. -/
def DIV_BRIGHTNESS : ℕ := 24

/-- Source `Plot::plot_index`. -/
def plot_index (width x y : ℕ) : ℕ := x + y * width

/-- Source `Plot::pixel_index`. -/
def pixel_index (width x y : ℕ) : ℕ := plot_index width x y * 4

/-- Source `division_width` (resp. `division_height`) in `Plot::done`. -/
def division_width (width : ℕ) : ℕ := width / DIVISIONS

/-- Source `half_division_width` (resp. `half_division_height`) in `Plot::done`. -/
def half_division_width (width : ℕ) : ℕ := division_width width / 2

/-- The red/blue component of the colour table:
`to_u8(((n - 128) as f32 * 1.5) as i32)`. -/
def rbOf (n : ℕ) : ℕ := to_u8 (fTrunc (((n : ℚ) - 128) * (3 / 2)))

/-- Source `Plot::INTENSITY_COLORS` as a function of the intensity:
entry `n` is `(red, green, blue)` with `green = to_u8(n * 2)` and
`red = blue = to_u8(((n - 128) as f32 * 1.5) as i32)` (the `+=` in the
source adds to components initialised to 0). -/
def INTENSITY_COLORS (n : ℕ) : ℕ × ℕ × ℕ :=
  (rbOf n, to_u8 ((n : ℤ) * 2), rbOf n)

/-- Select the channel `c ∈ {0, 1, 2}` of an RGB triple. -/
def chanSel (c : ℕ) (t : ℕ × ℕ × ℕ) : ℕ :=
  if c = 0 then t.1 else if c = 1 then t.2.1 else t.2.2

/-- `tri j i` holds when byte index `j` is one of the three colour
channels starting at byte index `i`. -/
def tri (j i : ℕ) : Prop := j = i ∨ j = i + 1 ∨ j = i + 2

instance (j i : ℕ) : Decidable (tri j i) := by
  unfold tri
  infer_instance

/-- `isGridLine w x` holds when `x` is one of the five grid-line
coordinates `w/(2*5) + k*(w/5)`, `k < 5`, of a raster extent `w` (the
spec's `width/(2*DIVISIONS) + k*width/DIVISIONS` with `DIVISIONS = 5`;
by `Nat.div_div_eq_div_mul` this equals the source's
`half_division_width + division_width * k`). -/
def isGridLine (w x : ℕ) : Prop := ∃ k, k < 5 ∧ x = w / (2 * 5) + k * (w / 5)

instance (w x : ℕ) : Decidable (isGridLine w x) := by
  unfold isGridLine
  infer_instance

/-- Write `DIV_BRIGHTNESS` to the three colour channels starting at byte
index `i` (one grid pixel in `Plot::done`). -/
def set3 (px : ℕ → ℕ) (i : ℕ) : ℕ → ℕ :=
  Function.update (Function.update (Function.update px i DIV_BRIGHTNESS)
    (i + 1) DIV_BRIGHTNESS) (i + 2) DIV_BRIGHTNESS

/-- The inner `for y in 0..height` loop of a vertical grid line at column `x`. -/
def gridCol (width x h : ℕ) (px : ℕ → ℕ) : ℕ → ℕ :=
  (List.range h).foldl (fun px y => set3 px (pixel_index width x y)) px

/-- The inner `for x in 0..width` loop of a horizontal grid line at row `y`. -/
def gridRow (width y n : ℕ) (px : ℕ → ℕ) : ℕ → ℕ :=
  (List.range n).foldl (fun px x => set3 px (pixel_index width x y)) px

/-- The grid loop of `Plot::done` generalised over the number of
divisions `d`: for each division draw the vertical line at column
`half_division_width + division_width * div`, then the horizontal line at
row `half_division_height + division_height * div`. -/
def gridPassAux (width height d : ℕ) (px : ℕ → ℕ) : ℕ → ℕ :=
  (List.range d).foldl
    (fun px div =>
      gridRow width (half_division_width height + division_width height * div) width
        (gridCol width (half_division_width width + division_width width * div) height px))
    px

/-- The `for div in 0..DIVISIONS` grid loop of `Plot::done`. -/
def gridPass (width height : ℕ) (px : ℕ → ℕ) : ℕ → ℕ :=
  gridPassAux width height DIVISIONS px

/-- One iteration of the "dots" loop of `Plot::done`: saturating-add the
colour-table entry for the persistence intensity at `(x, y)` onto the
three colour channels of that pixel. -/
def addColor (pl : ℕ → ℕ) (width x y : ℕ) (px : ℕ → ℕ) : ℕ → ℕ :=
  let i := pixel_index width x y
  let c := INTENSITY_COLORS (pl (plot_index width x y))
  let px1 := Function.update px i (satAdd (px i) c.1)
  let px2 := Function.update px1 (i + 1) (satAdd (px1 (i + 1)) c.2.1)
  Function.update px2 (i + 2) (satAdd (px2 (i + 2)) c.2.2)

/-- The inner `for x in 0..width` dots loop at row `y`. -/
def dotsRow (pl : ℕ → ℕ) (width y n : ℕ) (px : ℕ → ℕ) : ℕ → ℕ :=
  (List.range n).foldl (fun px x => addColor pl width x y px) px

/-- The outer `for y in 0..height` dots loop of `Plot::done`. -/
def dotsPass (pl : ℕ → ℕ) (width height : ℕ) (px : ℕ → ℕ) : ℕ → ℕ :=
  (List.range height).foldl (fun px y => dotsRow pl width y width px) px

/-- Source fading-out step `(*plot as f32 * 0.85) as u8` applied to one
cell (0.85 is modelled by the exact rational 17/20; on `0..=255` the
truncated products agree with the `f32` computation). -/
def decay (v : ℕ) : ℕ := (fTrunc ((v : ℚ) * (17 / 20))).toNat

/-- Source `Plot::done`: clear the pixel buffer to 0, draw the reference
grid, saturating-add the colour of every persistence cell, then decay the
whole persistence buffer. -/
def Plot.done (p : Plot) : Plot :=
  { p with
    pixels := dotsPass p.plot p.width p.height (gridPass p.width p.height (fun _ => 0)),
    plot := fun i => decay (p.plot i) }

/-- Source `struct AudioState` (without the opaque stream handle): the
shared back queue, the render-local front buffer and the previously drawn
stereo sample. -/
structure AudioState where
  samples_back : List ℚ
  samples_front : List ℚ
  last_sample : ℚ × ℚ

/-- The plotting loop of `AudioState::render`: fold over the stereo pairs
of the front buffer, connecting each pair to the previous sample with
`Plot::dot` and updating `last_sample`. -/
def plotSamples (half_width half_height : ℚ) (last : ℚ × ℚ) (front : List ℚ)
    (p : Plot) : (ℚ × ℚ) × Plot :=
  (chunksExact2 front).foldl
    (fun acc lr =>
      let prev := get_xy half_width half_height acc.1.1 acc.1.2
      let cur := get_xy half_width half_height lr.1 lr.2
      (lr, acc.2.dot prev.1 prev.2 cur.1 cur.2))
    (last, p)

/-- Source `AudioState::render`: flip the buffers if the back queue holds
more than 2048 samples, plot the (possibly retained) front buffer, then
run `Plot::done`. -/
def AudioState.render (a : AudioState) (p : Plot) : AudioState × Plot :=
  let half_width : ℚ := (p.width : ℚ) / 2
  let half_height : ℚ := (p.height : ℚ) / 2
  let bf := flipBuffers a.samples_back a.samples_front
  let lp := plotSamples half_width half_height a.last_sample bf.2 p
  (⟨bf.1, bf.2, lp.1⟩, lp.2.done)

/-- The state of the `main` event loop: the window size captured at
startup (the closure variable `window_size`, never reassigned), the
current surface size of the `pixels` context, the frame byte buffer, the
persistence buffer allocated once before the loop, and the audio state. -/
structure LoopState where
  window_size : ℕ × ℕ
  surface_size : ℕ × ℕ
  frame : ℕ → ℕ
  plotBuf : ℕ → ℕ
  audio : AudioState

/-- The events of the `main` loop that the match arms handle. -/
inductive Ev
  | closeRequested
  | resized (newSize : ℕ × ℕ)
  | redrawRequested

/-- The `Plot` value constructed for `state.render` on each
`RedrawRequested` event: dimensions from the captured startup
`window_size`, the current frame and persistence buffers, and
`previous_pos1` initialised to `(0, 0)`. -/
def mkFramePlot (s : LoopState) : Plot :=
  { width := s.window_size.1, height := s.window_size.2,
    pixels := s.frame, plot := s.plotBuf, previous_pos1 := (0, 0) }

/-- One step of the `main` event loop.  Returns the new state and whether
`ControlFlow::Exit` was requested.  `Resized` only resizes the `pixels`
surface; `RedrawRequested` runs `AudioState::render` on a fresh `Plot`. -/
def handleEvent (s : LoopState) : Ev → LoopState × Bool
  | Ev.closeRequested => (s, true)
  | Ev.resized ns => ({ s with surface_size := ns }, false)
  | Ev.redrawRequested =>
    let r := s.audio.render (mkFramePlot s)
    ({ s with audio := r.1, frame := r.2.pixels, plotBuf := r.2.plot }, false)

/-! ### Arithmetic helper lemmas about truncation, clamping and decay -/

theorem fTrunc_natCast (n : ℕ) : fTrunc (n : ℚ) = n := by
  unfold fTrunc
  rw [if_neg (not_lt.mpr (by positivity))]
  exact_mod_cast Int.floor_natCast n

theorem fTrunc_mono {q r : ℚ} (h : q ≤ r) : fTrunc q ≤ fTrunc r := by
  unfold fTrunc
  split_ifs with h1 h2 h2
  · have := Int.floor_mono (neg_le_neg h)
    omega
  · have h3 : 0 ≤ ⌊r⌋ := Int.floor_nonneg.mpr (not_lt.mp h2)
    have h4 : 0 ≤ ⌊-q⌋ := Int.floor_nonneg.mpr (by linarith)
    omega
  · linarith
  · exact Int.floor_mono h

theorem fTrunc_nonpos {q : ℚ} (h : q ≤ 0) : fTrunc q ≤ 0 := by
  unfold fTrunc
  split_ifs with h1
  · have : 0 ≤ ⌊-q⌋ := Int.floor_nonneg.mpr (by linarith)
    omega
  · have hq : q = 0 := le_antisymm h (not_lt.mp h1)
    simp [hq]

theorem to_u8_le (x : ℤ) : to_u8 x ≤ 255 := by
  unfold to_u8
  split_ifs <;> omega

theorem to_u8_mono {x y : ℤ} (h : x ≤ y) : to_u8 x ≤ to_u8 y := by
  unfold to_u8
  split_ifs <;> omega

theorem to_u8_nonpos {x : ℤ} (h : x ≤ 0) : to_u8 x = 0 := by
  unfold to_u8
  split_ifs <;> omega

theorem decay_zero : decay 0 = 0 := by
  unfold decay fTrunc
  norm_num

theorem decay_le (v : ℕ) : decay v ≤ v := by
  unfold decay
  have h0 : (0 : ℚ) ≤ (v : ℚ) * (17 / 20) := by positivity
  rw [fTrunc, if_neg (not_lt.mpr h0)]
  have h1 : (v : ℚ) * (17 / 20) ≤ (v : ℚ) := by
    nlinarith [Nat.cast_nonneg (α := ℚ) v]
  have h2 : ⌊(v : ℚ) * (17 / 20)⌋ ≤ (v : ℤ) := by
    calc ⌊(v : ℚ) * (17 / 20)⌋ ≤ ⌊(v : ℚ)⌋ := Int.floor_mono h1
    _ = (v : ℤ) := Int.floor_natCast v
  exact Int.toNat_le.mpr h2

/-! ### Claim C1 -/

/-- Claim C1: at a render tick, if the shared queue's length is at most
2048 the drain returns nothing and both the queue and the front buffer
are left exactly unchanged; if the length exceeds 2048 the entire
contents are removed and replace the front buffer wholesale. -/
theorem C1_drain_if_above (a : AudioState) (p : Plot) :
    ((a.render p).1.samples_back, (a.render p).1.samples_front) =
      (if a.samples_back.length > 2048 then (([] : List ℚ), a.samples_back)
       else (a.samples_back, a.samples_front)) := by
  by_cases hc : a.samples_back.length > 2048 <;>
    simp [AudioState.render, flipBuffers, hc]

/-! ### Claim C3 -/

/-- Claim C3: the coordinate mapper sends `(0,0)` to the centre
`(W/2, H/2)`, `(1,1)` to the right-edge top `(W, 0)` and `(-1,-1)` to the
left-edge bottom `(0, H)`, for every positive even raster size.  `f32`
arithmetic is modelled by exact rationals (exact for these inputs) and
`as i32` by `fTrunc`. -/
theorem C3_coordinate_map (W H : ℕ) (hW : W % 2 = 0) (hH : H % 2 = 0)
    (hW0 : 0 < W) (hH0 : 0 < H) :
    get_xy ((W : ℚ) / 2) ((H : ℚ) / 2) 0 0 = (((W / 2 : ℕ) : ℤ), ((H / 2 : ℕ) : ℤ)) ∧
    get_xy ((W : ℚ) / 2) ((H : ℚ) / 2) 1 1 = ((W : ℤ), 0) ∧
    get_xy ((W : ℚ) / 2) ((H : ℚ) / 2) (-1) (-1) = (0, (H : ℤ)) := by
  obtain ⟨k, rfl⟩ : ∃ k, W = 2 * k := ⟨W / 2, by omega⟩
  obtain ⟨l, rfl⟩ : ∃ l, H = 2 * l := ⟨H / 2, by omega⟩
  have hwq : ((2 * k : ℕ) : ℚ) / 2 = ((k : ℕ) : ℚ) := by push_cast; ring
  have hhq : ((2 * l : ℕ) : ℚ) / 2 = ((l : ℕ) : ℚ) := by push_cast; ring
  have h2k : 2 * k / 2 = k := by omega
  have h2l : 2 * l / 2 = l := by omega
  unfold get_xy
  rw [hwq, hhq, h2k, h2l]
  refine ⟨?_, ?_, ?_⟩
  · have e1 : (0 : ℚ) * ((k : ℕ) : ℚ) + ((k : ℕ) : ℚ) = ((k : ℕ) : ℚ) := by ring
    have e2 : -(0 : ℚ) * ((l : ℕ) : ℚ) + ((l : ℕ) : ℚ) = ((l : ℕ) : ℚ) := by ring
    rw [e1, e2, fTrunc_natCast, fTrunc_natCast]
  · have e1 : (1 : ℚ) * ((k : ℕ) : ℚ) + ((k : ℕ) : ℚ) = ((2 * k : ℕ) : ℚ) := by
      push_cast; ring
    have e2 : -(1 : ℚ) * ((l : ℕ) : ℚ) + ((l : ℕ) : ℚ) = ((0 : ℕ) : ℚ) := by
      push_cast; ring
    rw [e1, e2, fTrunc_natCast, fTrunc_natCast]
    simp
  · have e1 : (-1 : ℚ) * ((k : ℕ) : ℚ) + ((k : ℕ) : ℚ) = ((0 : ℕ) : ℚ) := by
      push_cast; ring
    have e2 : -(-1 : ℚ) * ((l : ℕ) : ℚ) + ((l : ℕ) : ℚ) = ((2 * l : ℕ) : ℚ) := by
      push_cast; ring
    rw [e1, e2, fTrunc_natCast, fTrunc_natCast]
    simp

/-- Witness for C3 at the concrete raster size 2 × 2. -/
theorem C3_witness :
    get_xy (((2 : ℕ) : ℚ) / 2) (((2 : ℕ) : ℚ) / 2) 0 0 = (((2 / 2 : ℕ) : ℤ), ((2 / 2 : ℕ) : ℤ)) ∧
    get_xy (((2 : ℕ) : ℚ) / 2) (((2 : ℕ) : ℚ) / 2) 1 1 = (((2 : ℕ) : ℤ), 0) ∧
    get_xy (((2 : ℕ) : ℚ) / 2) (((2 : ℕ) : ℚ) / 2) (-1) (-1) = (0, ((2 : ℕ) : ℤ)) :=
  C3_coordinate_map 2 2 (by decide) (by decide) (by decide) (by decide)

/-! ### Claim C6 -/

/-- Claim C6: the decay step multiplies every persistence cell by 0.85
and truncates; it is applied exactly once per rendered frame by
`Plot::done` after compositing (render = plot the samples, then `done`);
a cell at 0 stays at 0, and repeated decay is monotonically
non-increasing on every cell. -/
theorem C6_decay_once (p : Plot) (a : AudioState) (q : Plot) (v n : ℕ) :
    p.done.plot = (fun i => decay (p.plot i)) ∧
    (a.render q).2 =
      (plotSamples ((q.width : ℚ) / 2) ((q.height : ℚ) / 2) a.last_sample
        (flipBuffers a.samples_back a.samples_front).2 q).2.done ∧
    decay 0 = 0 ∧
    decay^[n + 1] v ≤ decay^[n] v := by
  refine ⟨rfl, rfl, decay_zero, ?_⟩
  rw [Function.iterate_succ_apply']
  exact decay_le _

/-! ### Claim C7 -/

/-- Claim C7: the colour table has `green = clamp(n*2, 0, 255)` and
`red = blue = clamp(trunc((n-128)*1.5), 0, 255)`; green is non-decreasing
in the intensity, red/blue are 0 for intensity at most 128, non-decreasing
above it, and never exceed 255. -/
theorem C7_color_table (n m : ℕ) (hn : n < 256) (_hm : m < 256) (hmn : n ≤ m) :
    (INTENSITY_COLORS n).2.1 = min (n * 2) 255 ∧
    (INTENSITY_COLORS n).1 = (INTENSITY_COLORS n).2.2 ∧
    (INTENSITY_COLORS n).1 = to_u8 (fTrunc (((n : ℚ) - 128) * (3 / 2))) ∧
    (INTENSITY_COLORS n).2.1 ≤ (INTENSITY_COLORS m).2.1 ∧
    (n ≤ 128 → (INTENSITY_COLORS n).1 = 0) ∧
    (INTENSITY_COLORS n).1 ≤ (INTENSITY_COLORS m).1 ∧
    (INTENSITY_COLORS m).1 ≤ 255 := by
  refine ⟨?_, rfl, rfl, ?_, ?_, ?_, ?_⟩
  · show to_u8 ((n : ℤ) * 2) = min (n * 2) 255
    unfold to_u8
    split_ifs <;> omega
  · show to_u8 ((n : ℤ) * 2) ≤ to_u8 ((m : ℤ) * 2)
    apply to_u8_mono
    omega
  · intro h128
    show rbOf n = 0
    unfold rbOf
    have hq : ((n : ℚ) - 128) * (3 / 2) ≤ 0 := by
      have : (n : ℚ) ≤ 128 := by exact_mod_cast h128
      nlinarith
    exact to_u8_nonpos (fTrunc_nonpos hq)
  · show rbOf n ≤ rbOf m
    unfold rbOf
    apply to_u8_mono
    apply fTrunc_mono
    have : (n : ℚ) ≤ (m : ℚ) := by exact_mod_cast hmn
    nlinarith
  · exact to_u8_le _

/-- Witness for C7 at the concrete intensities 100 and 200. -/
theorem C7_witness :
    (INTENSITY_COLORS 100).2.1 = min (100 * 2) 255 ∧
    (INTENSITY_COLORS 100).1 = (INTENSITY_COLORS 100).2.2 ∧
    (INTENSITY_COLORS 100).1 = to_u8 (fTrunc (((100 : ℚ) - 128) * (3 / 2))) ∧
    (INTENSITY_COLORS 100).2.1 ≤ (INTENSITY_COLORS 200).2.1 ∧
    (100 ≤ 128 → (INTENSITY_COLORS 100).1 = 0) ∧
    (INTENSITY_COLORS 100).1 ≤ (INTENSITY_COLORS 200).1 ∧
    (INTENSITY_COLORS 200).1 ≤ 255 :=
  C7_color_table 100 200 (by decide) (by decide) (by decide)

/-! ### Claim C9 -/

/-- Counterexample for C9: starting from a loop state whose persistence
buffer holds the value 5 at cell 3, a `Resized` event to the new size
`(16, 16)` leaves the persistence buffer untouched (cell 3 still holds 5,
not the 0 a freshly zero-filled grid would hold) and leaves the captured
`window_size` used by subsequent rendering at the startup size `(8, 8)`. -/
theorem C9_counterexample :
    (handleEvent ⟨(8, 8), (8, 8), fun _ => 0, Function.update (fun _ => 0) 3 5, ⟨[], [], (0, 0)⟩⟩
        (Ev.resized (16, 16))).1.plotBuf 3 = 5 ∧
    (handleEvent ⟨(8, 8), (8, 8), fun _ => 0, Function.update (fun _ => 0) 3 5, ⟨[], [], (0, 0)⟩⟩
        (Ev.resized (16, 16))).1.window_size = (8, 8) := by
  constructor
  · show Function.update (fun _ => (0 : ℕ)) 3 5 3 = 5
    simp
  · rfl

/-- Claim C9 as amended: a `Resized` event only records the new surface
size; the persistence buffer is neither reallocated nor cleared, and the
`Plot` used by subsequent redraws (dimensions from the captured startup
`window_size`, the same persistence buffer) is unchanged. -/
theorem C9_amended (s : LoopState) (ns : ℕ × ℕ) :
    handleEvent s (Ev.resized ns) = ({ s with surface_size := ns }, false) ∧
    mkFramePlot (handleEvent s (Ev.resized ns)).1 = mkFramePlot s :=
  ⟨rfl, rfl⟩

/-! ### Helper lemmas about `Plot.pixel` and `Plot.dot` -/

theorem cell_lt {w h x y : ℕ} (hx : x < w) (hy : y < h) : x + y * w < w * h := by
  calc x + y * w < w + y * w := by omega
    _ = (y + 1) * w := by ring
    _ ≤ h * w := Nat.mul_le_mul_right w hy
    _ = w * h := Nat.mul_comm h w

theorem Plot.pixel_width (p : Plot) (x y : ℤ) (n : ℕ) : (p.pixel x y n).width = p.width := by
  unfold Plot.pixel
  split <;> rfl

theorem Plot.pixel_height (p : Plot) (x y : ℤ) (n : ℕ) : (p.pixel x y n).height = p.height := by
  unfold Plot.pixel
  split <;> rfl

theorem Plot.point_previous (p : Plot) (x y : ℤ) (n : ℕ) :
    (p.point x y n).previous_pos1 = p.previous_pos1 := by
  unfold Plot.point Plot.pixel
  split <;> rfl

theorem Plot.pixel_plot_changes {p : Plot} {x y : ℤ} {n : ℕ} {j : ℕ}
    (h : (p.pixel x y n).plot j ≠ p.plot j) :
    ∃ a b, a < p.width ∧ b < p.height ∧ j = a + b * p.width := by
  rw [Plot.pixel] at h
  split_ifs at h with hg
  · by_cases hj : j = x.toNat + y.toNat * p.width
    · exact ⟨x.toNat, y.toNat, by omega, by omega, hj⟩
    · exact absurd (Function.update_noteq hj _ _) h
  · exact absurd rfl h

theorem dot_foldl_plot_changes :
    ∀ (l : List (ℤ × ℤ)) (p : Plot) (j : ℕ),
      (l.foldl (fun q c => if c ≠ q.previous_pos1 then q.point c.1 c.2 16 else q) p).plot j ≠
        p.plot j →
      ∃ a b, a < p.width ∧ b < p.height ∧ j = a + b * p.width := by
  intro l
  induction l with
  | nil =>
    intro p j h
    exact absurd rfl h
  | cons c t ih =>
    intro p j h
    rw [List.foldl_cons] at h
    have hw : (if c ≠ p.previous_pos1 then p.point c.1 c.2 16 else p).width = p.width := by
      split
      · exact Plot.pixel_width ..
      · rfl
    have hh : (if c ≠ p.previous_pos1 then p.point c.1 c.2 16 else p).height = p.height := by
      split
      · exact Plot.pixel_height ..
      · rfl
    by_cases hc : (if c ≠ p.previous_pos1 then p.point c.1 c.2 16 else p).plot j = p.plot j
    · have h2 : (t.foldl (fun q c => if c ≠ q.previous_pos1 then q.point c.1 c.2 16 else q)
          (if c ≠ p.previous_pos1 then p.point c.1 c.2 16 else p)).plot j ≠
          (if c ≠ p.previous_pos1 then p.point c.1 c.2 16 else p).plot j := by
        rw [hc]
        exact h
      obtain ⟨a, b, ha, hb, hj⟩ := ih _ _ h2
      rw [hw] at ha hj
      rw [hh] at hb
      exact ⟨a, b, ha, hb, hj⟩
    · revert hc
      split
      · intro hc
        exact Plot.pixel_plot_changes hc
      · intro hc
        exact absurd rfl hc

/-! ### Claim C4 -/

/-- Claim C4: however far the segment endpoints lie outside the raster,
`Plot::dot` only ever changes persistence cells `(a, b)` with
`a < width` and `b < height`, at the in-range flat index `a + b * width`;
out-of-bounds cells on the Bresenham path are silently skipped, so no
out-of-range write occurs. -/
theorem C4_clipping (p : Plot) (x0 y0 x1 y1 : ℤ) (j : ℕ)
    (h : (p.dot x0 y0 x1 y1).plot j ≠ p.plot j) :
    ∃ a b, a < p.width ∧ b < p.height ∧ j = a + b * p.width ∧ j < p.width * p.height := by
  obtain ⟨a, b, ha, hb, hj⟩ := dot_foldl_plot_changes (bresenham x0 y0 x1 y1) p j h
  refine ⟨a, b, ha, hb, hj, ?_⟩
  subst hj
  exact cell_lt ha hb

/-- Witness for C4: a 4 × 4 plot where drawing the degenerate segment
from `(0,0)` to `(0,0)` changes flat index 0. -/
theorem C4_witness :
    ∃ a b, a < (⟨4, 4, fun _ => 0, fun _ => 0, (1, 1)⟩ : Plot).width ∧
      b < (⟨4, 4, fun _ => 0, fun _ => 0, (1, 1)⟩ : Plot).height ∧
      0 = a + b * (⟨4, 4, fun _ => 0, fun _ => 0, (1, 1)⟩ : Plot).width ∧
      0 < (⟨4, 4, fun _ => 0, fun _ => 0, (1, 1)⟩ : Plot).width *
        (⟨4, 4, fun _ => 0, fun _ => 0, (1, 1)⟩ : Plot).height :=
  C4_clipping ⟨4, 4, fun _ => 0, fun _ => 0, (1, 1)⟩ 0 0 0 0 0 (by decide)

/-! ### Claim C5 -/

/-- Counterexample for C5: with `previous_pos1 = (1, 0)` (the previous
call's `to` endpoint), drawing the segment `(0,0) → (2,0)` enumerates the
cells `(0,0), (1,0), (2,0)`; the cell `(1,0)` differs from the
immediately-previous drawn cell `(0,0)`, yet it receives no intensity
(it is deduplicated against `previous_pos1`), while its neighbours
receive 16.  So "accumulates iff it differs from the immediately-previous
drawn cell" fails on the code. -/
theorem C5_counterexample :
    bresenham 0 0 2 0 = [(0, 0), (1, 0), (2, 0)] ∧
    (Plot.dot ⟨4, 4, fun _ => 0, fun _ => 0, (1, 0)⟩ 0 0 2 0).plot (plot_index 4 1 0) = 0 ∧
    (Plot.dot ⟨4, 4, fun _ => 0, fun _ => 0, (1, 0)⟩ 0 0 2 0).plot (plot_index 4 0 0) = 16 ∧
    (Plot.dot ⟨4, 4, fun _ => 0, fun _ => 0, (1, 0)⟩ 0 0 2 0).plot (plot_index 4 2 0) = 16 := by
  refine ⟨by decide, by decide, by decide, by decide⟩

theorem dot_foldl_freeze (v : ℤ × ℤ) :
    ∀ (l : List (ℤ × ℤ)) (p : Plot), p.previous_pos1 = v →
      l.foldl (fun q c => if c ≠ q.previous_pos1 then q.point c.1 c.2 16 else q) p =
        l.foldl (fun q c => if c ≠ v then q.point c.1 c.2 16 else q) p := by
  intro l
  induction l with
  | nil =>
    intro p hp
    rfl
  | cons c t ih =>
    intro p hp
    rw [List.foldl_cons, List.foldl_cons, hp]
    by_cases hc : c ≠ v
    · rw [if_pos hc]
      exact ih _ (by rw [Plot.point_previous, hp])
    · rw [if_neg hc]
      exact ih _ hp

/-- Claim C5 as amended: `Plot::dot` accumulates intensity 16 into each
enumerated Bresenham cell iff that cell differs from `previous_pos1`, the
`to` endpoint of the *previous `dot` call* (held constant for the whole
segment, not the immediately-previous drawn cell); `previous_pos1` is set
to the segment's `to` endpoint after each call and persists across calls
within one frame, but every redraw constructs a fresh `Plot` whose
`previous_pos1` is reset to `(0, 0)`. -/
theorem C5_amended (p : Plot) (x0 y0 x1 y1 : ℤ) (s : LoopState) :
    (p.dot x0 y0 x1 y1).previous_pos1 = (x1, y1) ∧
    p.dot x0 y0 x1 y1 =
      { (bresenham x0 y0 x1 y1).foldl
          (fun q c => if c ≠ p.previous_pos1 then q.point c.1 c.2 16 else q) p with
        previous_pos1 := (x1, y1) } ∧
    (mkFramePlot s).previous_pos1 = (0, 0) := by
  refine ⟨rfl, ?_, rfl⟩
  unfold Plot.dot
  rw [dot_foldl_freeze p.previous_pos1 _ p rfl]

/-! ### Claim C2 -/

theorem gxy00_eval : get_xy 2 2 0 0 = (2, 2) := by
  unfold get_xy
  norm_num [fTrunc]

theorem gxy11_eval : get_xy 2 2 1 1 = (4, 0) := by
  unfold get_xy
  norm_num [fTrunc]

theorem decay16_eval : decay 16 = 13 := by
  have h : fTrunc (((16 : ℕ) : ℚ) * (17 / 20)) = 13 := by norm_num [fTrunc]
  unfold decay
  rw [h]
  rfl

/-- Counterexample for C2: with an empty shared queue (length 0, at most
2048, so the drain returns nothing) and the front buffer retaining the
single stereo pair `(1, 1)` from an earlier swap, the render tick still
accumulates intensity: persistence cell 7 (cell `(3, 1)` of the 4 × 4
raster, on the Bresenham path from the mapped previous sample `(2, 2)`
to the mapped sample `(4, 0)`) ends the frame at `decay 16 = 13`, not at
the 0 the claim's "no intensity accumulation" implies. -/
theorem C2_counterexample :
    (AudioState.render ⟨[], [1, 1], (0, 0)⟩ ⟨4, 4, fun _ => 0, fun _ => 0, (0, 0)⟩).2.plot 7 = 13 ∧
    (⟨[], [1, 1], (0, 0)⟩ : AudioState).samples_back.length ≤ 2048 ∧
    (⟨4, 4, fun _ => 0, fun _ => 0, (0, 0)⟩ : Plot).plot 7 = 0 := by
  refine ⟨?_, by decide, rfl⟩
  have e1 : (AudioState.render ⟨[], [1, 1], (0, 0)⟩ ⟨4, 4, fun _ => 0, fun _ => 0, (0, 0)⟩).2 =
      (plotSamples (((4 : ℕ) : ℚ) / 2) (((4 : ℕ) : ℚ) / 2) (0, 0) [1, 1]
        ⟨4, 4, fun _ => 0, fun _ => 0, (0, 0)⟩).2.done := rfl
  rw [e1]
  have hq : ((4 : ℕ) : ℚ) / 2 = 2 := by norm_num
  have e2 : (plotSamples (((4 : ℕ) : ℚ) / 2) (((4 : ℕ) : ℚ) / 2) (0, 0) [1, 1]
      ⟨4, 4, fun _ => 0, fun _ => 0, (0, 0)⟩).2 =
      Plot.dot ⟨4, 4, fun _ => 0, fun _ => 0, (0, 0)⟩ 2 2 4 0 := by
    simp only [plotSamples, chunksExact2, List.foldl_cons, List.foldl_nil, hq,
      gxy00_eval, gxy11_eval]
  rw [show (plotSamples (((4 : ℕ) : ℚ) / 2) (((4 : ℕ) : ℚ) / 2) (0, 0) [1, 1]
        ⟨4, 4, fun _ => 0, fun _ => 0, (0, 0)⟩).2.done.plot 7 =
      decay ((plotSamples (((4 : ℕ) : ℚ) / 2) (((4 : ℕ) : ℚ) / 2) (0, 0) [1, 1]
        ⟨4, 4, fun _ => 0, fun _ => 0, (0, 0)⟩).2.plot 7) from rfl, e2]
  rw [show (Plot.dot ⟨4, 4, fun _ => 0, fun _ => 0, (0, 0)⟩ 2 2 4 0).plot 7 = 16 by decide]
  exact decay16_eval

/-- Claim C2 as amended: when the drain returns nothing (queue length at
most 2048), the render pass retains the front buffer and re-renders its
contents as if they were new samples: the resulting plot state is exactly
`Plot::done` applied after re-plotting the retained front buffer's stereo
pairs. -/
theorem C2_amended (a : AudioState) (p : Plot) (h : a.samples_back.length ≤ 2048) :
    (a.render p).1.samples_front = a.samples_front ∧
    (a.render p).2 =
      (plotSamples ((p.width : ℚ) / 2) ((p.height : ℚ) / 2) a.last_sample
        a.samples_front p).2.done := by
  have hb : flipBuffers a.samples_back a.samples_front = (a.samples_back, a.samples_front) := by
    unfold flipBuffers
    rw [if_neg (by omega)]
  constructor
  · show (flipBuffers a.samples_back a.samples_front).2 = a.samples_front
    rw [hb]
  · show (plotSamples ((p.width : ℚ) / 2) ((p.height : ℚ) / 2) a.last_sample
        (flipBuffers a.samples_back a.samples_front).2 p).2.done = _
    rw [hb]

/-- Witness for C2's amended claim at a concrete no-drain state. -/
theorem C2_witness :
    (AudioState.render ⟨[], [1, 1], (0, 0)⟩ ⟨4, 4, fun _ => 0, fun _ => 0, (0, 0)⟩).1.samples_front =
      (⟨[], [1, 1], (0, 0)⟩ : AudioState).samples_front ∧
    (AudioState.render ⟨[], [1, 1], (0, 0)⟩ ⟨4, 4, fun _ => 0, fun _ => 0, (0, 0)⟩).2 =
      (plotSamples (((⟨4, 4, fun _ => 0, fun _ => 0, (0, 0)⟩ : Plot).width : ℚ) / 2)
        (((⟨4, 4, fun _ => 0, fun _ => 0, (0, 0)⟩ : Plot).height : ℚ) / 2)
        (⟨[], [1, 1], (0, 0)⟩ : AudioState).last_sample
        (⟨[], [1, 1], (0, 0)⟩ : AudioState).samples_front
        ⟨4, 4, fun _ => 0, fun _ => 0, (0, 0)⟩).2.done :=
  C2_amended ⟨[], [1, 1], (0, 0)⟩ ⟨4, 4, fun _ => 0, fun _ => 0, (0, 0)⟩ (by decide)

/-! ### Pointwise characterisation of the compositing passes -/

theorem set3_apply (px : ℕ → ℕ) (i j : ℕ) :
    set3 px i j = if tri j i then DIV_BRIGHTNESS else px j := by
  unfold set3 tri
  rw [Function.update_apply, Function.update_apply, Function.update_apply]
  split_ifs <;> first | rfl | tauto

theorem gridCol_apply (width x : ℕ) :
    ∀ (h : ℕ) (px : ℕ → ℕ) (j : ℕ),
      gridCol width x h px j =
        if ∃ y, y < h ∧ tri j (pixel_index width x y) then DIV_BRIGHTNESS else px j := by
  intro h
  induction h with
  | zero =>
    intro px j
    rw [if_neg (by rintro ⟨y, hy, _⟩; omega)]
    rfl
  | succ n ih =>
    intro px j
    have e : gridCol width x (n + 1) px = set3 (gridCol width x n px) (pixel_index width x n) := by
      unfold gridCol
      rw [List.range_succ, List.foldl_append, List.foldl_cons, List.foldl_nil]
    rw [e, set3_apply, ih]
    by_cases h1 : tri j (pixel_index width x n)
    · rw [if_pos h1, if_pos ⟨n, Nat.lt_succ_self n, h1⟩]
    · rw [if_neg h1]
      by_cases h2 : ∃ y, y < n ∧ tri j (pixel_index width x y)
      · obtain ⟨y, hy, ht⟩ := h2
        rw [if_pos ⟨y, hy, ht⟩, if_pos ⟨y, Nat.lt_succ_of_lt hy, ht⟩]
      · have h3 : ¬ ∃ y, y < n + 1 ∧ tri j (pixel_index width x y) := by
          rintro ⟨y, hy, ht⟩
          have h4 : y < n ∨ y = n := by omega
          rcases h4 with h4 | h4
          · exact h2 ⟨y, h4, ht⟩
          · exact h1 (h4 ▸ ht)
        rw [if_neg h2, if_neg h3]

theorem gridRow_apply (width y : ℕ) :
    ∀ (n : ℕ) (px : ℕ → ℕ) (j : ℕ),
      gridRow width y n px j =
        if ∃ x, x < n ∧ tri j (pixel_index width x y) then DIV_BRIGHTNESS else px j := by
  intro n
  induction n with
  | zero =>
    intro px j
    rw [if_neg (by rintro ⟨x, hx, _⟩; omega)]
    rfl
  | succ m ih =>
    intro px j
    have e : gridRow width y (m + 1) px = set3 (gridRow width y m px) (pixel_index width m y) := by
      unfold gridRow
      rw [List.range_succ, List.foldl_append, List.foldl_cons, List.foldl_nil]
    rw [e, set3_apply, ih]
    by_cases h1 : tri j (pixel_index width m y)
    · rw [if_pos h1, if_pos ⟨m, Nat.lt_succ_self m, h1⟩]
    · rw [if_neg h1]
      by_cases h2 : ∃ x, x < m ∧ tri j (pixel_index width x y)
      · obtain ⟨x, hx, ht⟩ := h2
        rw [if_pos ⟨x, hx, ht⟩, if_pos ⟨x, Nat.lt_succ_of_lt hx, ht⟩]
      · have h3 : ¬ ∃ x, x < m + 1 ∧ tri j (pixel_index width x y) := by
          rintro ⟨x, hx, ht⟩
          have h4 : x < m ∨ x = m := by omega
          rcases h4 with h4 | h4
          · exact h2 ⟨x, h4, ht⟩
          · exact h1 (h4 ▸ ht)
        rw [if_neg h2, if_neg h3]

theorem gridPassAux_apply (width height : ℕ) :
    ∀ (d : ℕ) (px : ℕ → ℕ) (j : ℕ),
      gridPassAux width height d px j =
        if ∃ div, div < d ∧
            ((∃ y, y < height ∧
                tri j (pixel_index width (half_division_width width + division_width width * div) y)) ∨
             (∃ x, x < width ∧
                tri j (pixel_index width x (half_division_width height + division_width height * div))))
        then DIV_BRIGHTNESS else px j := by
  intro d
  induction d with
  | zero =>
    intro px j
    rw [if_neg (by rintro ⟨dv, hdv, _⟩; omega)]
    rfl
  | succ n ih =>
    intro px j
    have e : gridPassAux width height (n + 1) px =
        gridRow width (half_division_width height + division_width height * n) width
          (gridCol width (half_division_width width + division_width width * n) height
            (gridPassAux width height n px)) := by
      unfold gridPassAux
      rw [List.range_succ, List.foldl_append, List.foldl_cons, List.foldl_nil]
    rw [e, gridRow_apply, gridCol_apply, ih]
    by_cases hR : ∃ x, x < width ∧
        tri j (pixel_index width x (half_division_width height + division_width height * n))
    · rw [if_pos hR, if_pos ⟨n, Nat.lt_succ_self n, Or.inr hR⟩]
    · rw [if_neg hR]
      by_cases hC : ∃ y, y < height ∧
          tri j (pixel_index width (half_division_width width + division_width width * n) y)
      · rw [if_pos hC, if_pos ⟨n, Nat.lt_succ_self n, Or.inl hC⟩]
      · rw [if_neg hC]
        by_cases hO : ∃ div, div < n ∧
            ((∃ y, y < height ∧
                tri j (pixel_index width (half_division_width width + division_width width * div) y)) ∨
             (∃ x, x < width ∧
                tri j (pixel_index width x (half_division_width height + division_width height * div))))
        · obtain ⟨dv, hdv, hb⟩ := hO
          rw [if_pos ⟨dv, hdv, hb⟩, if_pos ⟨dv, Nat.lt_succ_of_lt hdv, hb⟩]
        · have hN : ¬ ∃ div, div < n + 1 ∧
              ((∃ y, y < height ∧
                  tri j (pixel_index width (half_division_width width + division_width width * div) y)) ∨
               (∃ x, x < width ∧
                  tri j (pixel_index width x (half_division_width height + division_width height * div)))) := by
            rintro ⟨dv, hdv, hb⟩
            have h4 : dv < n ∨ dv = n := by omega
            rcases h4 with h4 | h4
            · exact hO ⟨dv, h4, hb⟩
            · subst h4
              rcases hb with hb | hb
              · exact hC hb
              · exact hR hb
          rw [if_neg hO, if_neg hN]

theorem addColor_apply (pl : ℕ → ℕ) (width x y : ℕ) (px : ℕ → ℕ) (j : ℕ) :
    addColor pl width x y px j =
      if j = pixel_index width x y then
        satAdd (px j) (INTENSITY_COLORS (pl (plot_index width x y))).1
      else if j = pixel_index width x y + 1 then
        satAdd (px j) (INTENSITY_COLORS (pl (plot_index width x y))).2.1
      else if j = pixel_index width x y + 2 then
        satAdd (px j) (INTENSITY_COLORS (pl (plot_index width x y))).2.2
      else px j := by
  unfold addColor
  simp only [Function.update_apply]
  split_ifs <;> first | rfl | (subst_vars; rfl) | (exfalso; omega)

theorem dotsRow_untouched (pl : ℕ → ℕ) (width y : ℕ) :
    ∀ (n : ℕ) (px : ℕ → ℕ) (j : ℕ),
      (∀ x, x < n → ¬ tri j (pixel_index width x y)) →
      dotsRow pl width y n px j = px j := by
  intro n
  induction n with
  | zero =>
    intro px j _
    rfl
  | succ m ih =>
    intro px j hx
    have e : dotsRow pl width y (m + 1) px = addColor pl width m y (dotsRow pl width y m px) := by
      unfold dotsRow
      rw [List.range_succ, List.foldl_append, List.foldl_cons, List.foldl_nil]
    rw [e, addColor_apply]
    have hm := hx m (Nat.lt_succ_self m)
    unfold tri at hm
    push_neg at hm
    rw [if_neg hm.1, if_neg hm.2.1, if_neg hm.2.2]
    exact ih px j (fun x hxm => hx x (Nat.lt_succ_of_lt hxm))

theorem dotsRow_hit (pl : ℕ → ℕ) (width y : ℕ) :
    ∀ (n : ℕ) (px : ℕ → ℕ) (x c : ℕ), x < n → c < 3 →
      dotsRow pl width y n px (pixel_index width x y + c) =
        satAdd (px (pixel_index width x y + c))
          (chanSel c (INTENSITY_COLORS (pl (plot_index width x y)))) := by
  intro n
  induction n with
  | zero =>
    intro px x c hx _
    omega
  | succ m ih =>
    intro px x c hx hc
    have e : dotsRow pl width y (m + 1) px = addColor pl width m y (dotsRow pl width y m px) := by
      unfold dotsRow
      rw [List.range_succ, List.foldl_append, List.foldl_cons, List.foldl_nil]
    rw [e, addColor_apply]
    by_cases hxm : x = m
    · subst hxm
      have huntouched : dotsRow pl width y x px (pixel_index width x y + c) =
          px (pixel_index width x y + c) := by
        apply dotsRow_untouched
        intro a ha ht
        unfold tri pixel_index plot_index at ht
        rcases ht with ht | ht | ht <;> omega
      interval_cases c
      · rw [if_pos (by omega), huntouched]
        simp [chanSel]
      · rw [if_neg (by unfold pixel_index plot_index; omega), if_pos (by omega), huntouched]
        simp [chanSel]
      · rw [if_neg (by unfold pixel_index plot_index; omega),
          if_neg (by unfold pixel_index plot_index; omega), if_pos (by omega), huntouched]
        simp [chanSel]
    · have h1 : ¬ pixel_index width x y + c = pixel_index width m y := by
        unfold pixel_index plot_index
        omega
      have h2 : ¬ pixel_index width x y + c = pixel_index width m y + 1 := by
        unfold pixel_index plot_index
        omega
      have h3 : ¬ pixel_index width x y + c = pixel_index width m y + 2 := by
        unfold pixel_index plot_index
        omega
      rw [if_neg h1, if_neg h2, if_neg h3]
      exact ih px x c (by omega) hc

theorem dotsPass_untouched (pl : ℕ → ℕ) (width : ℕ) :
    ∀ (height : ℕ) (px : ℕ → ℕ) (j : ℕ),
      (∀ x y, x < width → y < height → ¬ tri j (pixel_index width x y)) →
      dotsPass pl width height px j = px j := by
  intro height
  induction height with
  | zero =>
    intro px j _
    rfl
  | succ m ih =>
    intro px j hx
    have e : dotsPass pl width (m + 1) px = dotsRow pl width m width (dotsPass pl width m px) := by
      unfold dotsPass
      rw [List.range_succ, List.foldl_append, List.foldl_cons, List.foldl_nil]
    rw [e, dotsRow_untouched pl width m width _ j (fun x hxw => hx x m hxw (Nat.lt_succ_self m))]
    exact ih px j (fun x y hxw hym => hx x y hxw (Nat.lt_succ_of_lt hym))

theorem dotsPass_hit (pl : ℕ → ℕ) (width : ℕ) :
    ∀ (height : ℕ) (px : ℕ → ℕ) (x y c : ℕ), x < width → y < height → c < 3 →
      dotsPass pl width height px (pixel_index width x y + c) =
        satAdd (px (pixel_index width x y + c))
          (chanSel c (INTENSITY_COLORS (pl (plot_index width x y)))) := by
  intro height
  induction height with
  | zero =>
    intro px x y c _ hy _
    omega
  | succ m ih =>
    intro px x y c hx hy hc
    have e : dotsPass pl width (m + 1) px = dotsRow pl width m width (dotsPass pl width m px) := by
      unfold dotsPass
      rw [List.range_succ, List.foldl_append, List.foldl_cons, List.foldl_nil]
    rw [e]
    by_cases hym : y = m
    · subst hym
      rw [dotsRow_hit pl width y width (dotsPass pl width y px) x c hx hc]
      have huntouched : dotsPass pl width y px (pixel_index width x y + c) =
          px (pixel_index width x y + c) := by
        apply dotsPass_untouched
        intro a b ha hb ht
        have hcell : a + b * width < width * y := cell_lt ha hb
        have hcomm : width * y = y * width := Nat.mul_comm width y
        unfold tri pixel_index plot_index at ht
        rcases ht with ht | ht | ht <;> omega
      rw [huntouched]
    · have hdisj : ∀ a, a < width → ¬ tri (pixel_index width x y + c) (pixel_index width a m) := by
        intro a ha ht
        have hcell : x + y * width < width * m := cell_lt hx (by omega)
        have hcomm : width * m = m * width := Nat.mul_comm width m
        unfold tri pixel_index plot_index at ht
        rcases ht with ht | ht | ht <;> omega
      rw [dotsRow_untouched pl width m width (dotsPass pl width m px) _ hdisj]
      exact ih px x y c hx (by omega) hc

theorem rowcol_inj {w x a y b : ℕ} (hx : x < w) (ha : a < w)
    (he : x + y * w = a + b * w) : x = a ∧ y = b := by
  have hw : 0 < w := by omega
  have h1 : (x + y * w) % w = x := by
    rw [Nat.add_mul_mod_self_right, Nat.mod_eq_of_lt hx]
  have h2 : (a + b * w) % w = a := by
    rw [Nat.add_mul_mod_self_right, Nat.mod_eq_of_lt ha]
  have h3 : (x + y * w) / w = y := by
    rw [Nat.add_mul_div_right _ _ hw, Nat.div_eq_of_lt hx]
    omega
  have h4 : (a + b * w) / w = b := by
    rw [Nat.add_mul_div_right _ _ hw, Nat.div_eq_of_lt ha]
    omega
  constructor
  · rw [← h1, ← h2, he]
  · rw [← h3, ← h4, he]

theorem grid_coord_lt {w : ℕ} (k : ℕ) (hw : 1 ≤ w) (hk : k < 5) :
    half_division_width w + division_width w * k < w := by
  unfold half_division_width division_width DIVISIONS
  interval_cases k <;> omega

/-! ### Claim C10 -/

/-- Claim C10: for raster dimensions at least 1 × 1, the composite pass
indexes only in bounds: every grid-line coordinate
`half_division + division * k` for `k < 5` lies strictly inside the
raster, and the flat indices used for the persistence buffer
(`width * height` cells) and the pixel buffer (`4 * width * height`
bytes) are in range for every in-bounds cell. -/
theorem C10_composite_in_bounds (w h k x y : ℕ) (hw : 1 ≤ w) (hh : 1 ≤ h)
    (hk : k < 5) (hx : x < w) (hy : y < h) :
    half_division_width w + division_width w * k < w ∧
    half_division_width h + division_width h * k < h ∧
    plot_index w x y < w * h ∧
    pixel_index w x y + 2 < 4 * (w * h) := by
  refine ⟨grid_coord_lt k hw hk, grid_coord_lt k hh hk, cell_lt hx hy, ?_⟩
  have hcell : x + y * w < w * h := cell_lt hx hy
  unfold pixel_index plot_index
  omega

/-- Witness for C10 at the concrete size 8 × 8, division 4, cell (7, 7). -/
theorem C10_witness :
    half_division_width 8 + division_width 8 * 4 < 8 ∧
    half_division_width 8 + division_width 8 * 4 < 8 ∧
    plot_index 8 7 7 < 8 * 8 ∧
    pixel_index 8 7 7 + 2 < 4 * (8 * 8) :=
  C10_composite_in_bounds 8 8 4 7 7 (by decide) (by decide) (by decide) (by decide) (by decide)

/-! ### Claim C8 -/

theorem grid_x_eq (w k : ℕ) :
    half_division_width w + division_width w * k = w / (2 * 5) + k * (w / 5) := by
  unfold half_division_width division_width DIVISIONS
  rw [Nat.div_div_eq_div_mul, Nat.mul_comm 5 2, Nat.mul_comm (w / 5) k]

theorem grid_cond_iff {w h x y c : ℕ} (hx : x < w) (hy : y < h) (hc : c < 3) :
    (∃ div, div < 5 ∧
        ((∃ b, b < h ∧ tri (pixel_index w x y + c)
            (pixel_index w (half_division_width w + division_width w * div) b)) ∨
         (∃ a, a < w ∧ tri (pixel_index w x y + c)
            (pixel_index w a (half_division_width h + division_width h * div))))) ↔
      (isGridLine w x ∨ isGridLine h y) := by
  unfold isGridLine
  constructor
  · rintro ⟨dv, hdv, ⟨b, hb, ht⟩ | ⟨a, ha, ht⟩⟩
    · have hgx : half_division_width w + division_width w * dv < w :=
        grid_coord_lt dv (by omega) hdv
      have heq : x + y * w = (half_division_width w + division_width w * dv) + b * w := by
        unfold tri pixel_index plot_index at ht
        rcases ht with ht | ht | ht <;> omega
      obtain ⟨hxe, -⟩ := rowcol_inj hx hgx heq
      exact Or.inl ⟨dv, hdv, by rw [hxe, grid_x_eq]⟩
    · have hgy : half_division_width h + division_width h * dv < h :=
        grid_coord_lt dv (by omega) hdv
      have heq : x + y * w = a + (half_division_width h + division_width h * dv) * w := by
        unfold tri pixel_index plot_index at ht
        rcases ht with ht | ht | ht <;> omega
      obtain ⟨-, hye⟩ := rowcol_inj hx ha heq
      exact Or.inr ⟨dv, hdv, by rw [hye, grid_x_eq]⟩
  · rintro (⟨k, hk, hxe⟩ | ⟨k, hk, hye⟩)
    · refine ⟨k, hk, Or.inl ⟨y, hy, ?_⟩⟩
      rw [grid_x_eq, ← hxe]
      unfold tri pixel_index plot_index
      omega
    · refine ⟨k, hk, Or.inr ⟨x, hx, ?_⟩⟩
      rw [grid_x_eq, ← hye]
      unfold tri pixel_index plot_index
      omega

/-- Claim C8: for every raster size and persistence-buffer contents, the
composite of `Plot::done` is, pointwise on every in-bounds pixel and
channel: black (0) as the base, 24 on the three colour channels of the
grid lines at `x = width/(2*5) + k*(width/5)` (vertical, `k < 5`) and
`y = height/(2*5) + k*(height/5)` (horizontal), then the colour-table
entry for the cell's persistence intensity saturating-added on top; the
alpha channel stays 0. -/
theorem C8_composite (p : Plot) (x y c : ℕ)
    (hx : x < p.width) (hy : y < p.height) (hc : c < 4) :
    p.done.pixels (pixel_index p.width x y + c) =
      (if c < 3 then
        satAdd
          (if isGridLine p.width x ∨ isGridLine p.height y then 24 else 0)
          (chanSel c (INTENSITY_COLORS (p.plot (plot_index p.width x y))))
      else 0) := by
  have e : p.done.pixels =
      dotsPass p.plot p.width p.height (gridPass p.width p.height (fun _ => 0)) := rfl
  by_cases hcc : c < 3
  · rw [if_pos hcc, e, dotsPass_hit p.plot p.width p.height
      (gridPass p.width p.height (fun _ => 0)) x y c hx hy hcc]
    have eg : gridPass p.width p.height (fun _ => 0) (pixel_index p.width x y + c) =
        (if isGridLine p.width x ∨ isGridLine p.height y then 24 else 0) := by
      have e2 : gridPass p.width p.height (fun _ => 0) =
          gridPassAux p.width p.height 5 (fun _ => 0) := rfl
      rw [e2, gridPassAux_apply]
      exact if_congr (grid_cond_iff hx hy hcc) rfl rfl
    rw [eg]
  · rw [if_neg hcc, e]
    have hu : dotsPass p.plot p.width p.height (gridPass p.width p.height (fun _ => 0))
        (pixel_index p.width x y + c) =
        gridPass p.width p.height (fun _ => 0) (pixel_index p.width x y + c) := by
      apply dotsPass_untouched
      intro a b ha hb ht
      unfold tri pixel_index plot_index at ht
      rcases ht with ht | ht | ht <;> omega
    rw [hu]
    have e2 : gridPass p.width p.height (fun _ => 0) =
        gridPassAux p.width p.height 5 (fun _ => 0) := rfl
    rw [e2, gridPassAux_apply]
    have hng : ¬ ∃ div, div < 5 ∧
        ((∃ b, b < p.height ∧ tri (pixel_index p.width x y + c)
            (pixel_index p.width (half_division_width p.width + division_width p.width * div) b)) ∨
         (∃ a, a < p.width ∧ tri (pixel_index p.width x y + c)
            (pixel_index p.width a
              (half_division_width p.height + division_width p.height * div)))) := by
      rintro ⟨dv, hdv, ⟨b, hb, ht⟩ | ⟨a, ha, ht⟩⟩ <;>
        (unfold tri pixel_index plot_index at ht; rcases ht with ht | ht | ht <;> omega)
    rw [if_neg hng]

/-- Witness for C8 at the concrete 2 × 2 raster, cell (0, 0), channel 0. -/
theorem C8_witness :
    (Plot.done ⟨2, 2, fun _ => 0, fun _ => 0, (0, 0)⟩).pixels
        (pixel_index (⟨2, 2, fun _ => 0, fun _ => 0, (0, 0)⟩ : Plot).width 0 0 + 0) =
      (if (0 : ℕ) < 3 then
        satAdd
          (if isGridLine (⟨2, 2, fun _ => 0, fun _ => 0, (0, 0)⟩ : Plot).width 0 ∨
              isGridLine (⟨2, 2, fun _ => 0, fun _ => 0, (0, 0)⟩ : Plot).height 0 then 24 else 0)
          (chanSel 0 (INTENSITY_COLORS ((⟨2, 2, fun _ => 0, fun _ => 0, (0, 0)⟩ : Plot).plot
            (plot_index (⟨2, 2, fun _ => 0, fun _ => 0, (0, 0)⟩ : Plot).width 0 0))))
      else 0) :=
  C8_composite ⟨2, 2, fun _ => 0, fun _ => 0, (0, 0)⟩ 0 0 0 (by decide) (by decide) (by decide)
